import Mathlib

/-!
Shallow embedding of `src/main.py` (inventory consolidation engine).

Modelling conventions:
* Python `float` prices are modelled as `ℚ` (the program only adds and
  multiplies prices, and the claims compare against an explicit tolerance).
* Python `int` quantities are modelled as `ℤ`.
* Python `dict` (insertion ordered, unique keys) is modelled as an
  association list `List (String × Item)`; a new key is appended at the
  end, an update keeps the entry in place, exactly as CPython dicts do.
* `str.lower` / `str.strip` are modelled on ASCII data
  (`lowerChar` / `isSpaceChar`), which covers every string the program
  manipulates in the claims.
* `int(...)` / `float(...)` on strings are modelled by `pyInt` / `pyFloat`
  on plain decimal literals (optional sign, digits, optional fraction),
  the shapes `load_from_csv` can meet and produce.
-/

/-- ASCII lower-casing of one character, modelling Python `str.lower`. -/
def lowerChar (c : Char) : Char :=
  if 65 ≤ c.toNat ∧ c.toNat ≤ 90 then Char.ofNat (c.toNat + 32) else c

/-- Models Python `str.lower()`. -/
def pyLower (s : String) : String :=
  ⟨s.data.map lowerChar⟩

/-- ASCII whitespace, as stripped by Python `str.strip()`. -/
def isSpaceChar (c : Char) : Bool :=
  c = ' ' || c = '\t' || c = '\n' || c = '\r'

/-- Models Python `str.strip()` on a character list. -/
def pyStripChars (cs : List Char) : List Char :=
  ((cs.dropWhile isSpaceChar).reverse.dropWhile isSpaceChar).reverse

/-- Models Python `str.strip()`. -/
def pyStrip (s : String) : String :=
  ⟨pyStripChars s.data⟩

/-- The numeric value of a decimal digit character. -/
def digitVal (c : Char) : Option Nat :=
  if 48 ≤ c.toNat ∧ c.toNat ≤ 57 then some (c.toNat - 48) else none

/-- Decides whether a character is a decimal digit. -/
def isDig (c : Char) : Bool :=
  decide (48 ≤ c.toNat ∧ c.toNat ≤ 57)

/-- The character for a decimal digit value (values `≥ 9` clamp to `9`;
only values below ten are ever produced by the program model). -/
def digitCharOf (d : Nat) : Char :=
  match d with
  | 0 => '0' | 1 => '1' | 2 => '2' | 3 => '3' | 4 => '4'
  | 5 => '5' | 6 => '6' | 7 => '7' | 8 => '8' | _ => '9'

/-- Accumulating base-ten reader over digit characters; fails on any
non-digit character. -/
def digitsValGo (a : Nat) : List Char → Option Nat
  | [] => some a
  | c :: cs =>
    match digitVal c with
    | some d => digitsValGo (10 * a + d) cs
    | none => none

/-- Reads a run of digit characters as a number (empty list reads as `0`). -/
def digitsVal (cs : List Char) : Option Nat :=
  digitsValGo 0 cs

/-- Reads a nonempty run of digit characters as a number. -/
def digitsValNE (cs : List Char) : Option Nat :=
  if cs.isEmpty then none else digitsVal cs

/-- Decimal rendering of a natural number, as Python `str` does. -/
def natStrChars (n : Nat) : List Char :=
  if n = 0 then ['0'] else ((Nat.digits 10 n).reverse).map digitCharOf

/-- Decimal rendering of an integer, modelling Python `str(int)`. -/
def intStrChars (q : Int) : List Char :=
  if q < 0 then '-' :: natStrChars q.natAbs else natStrChars q.natAbs

/-- String form of `intStrChars`. -/
def intStr (q : Int) : String :=
  ⟨intStrChars q⟩

/-- Floor of a rational number. -/
def qfloor (q : ℚ) : Int :=
  q.num.ediv (q.den : Int)

/-- Round-half-to-even, the rounding used by Python float formatting. -/
def bankersRound (q : ℚ) : Int :=
  let f := qfloor q
  let r := q - (f : ℚ)
  if r < 1 / 2 then f
  else if 1 / 2 < r then f + 1
  else if f % 2 = 0 then f else f + 1

/-- Character form of Python `f-string` formatting with `.2f`:
the value rounded (half to even) to two decimals. -/
def fmt2Chars (p : ℚ) : List Char :=
  let m := bankersRound (p * 100)
  let a := m.natAbs
  let ds := natStrChars (a / 100) ++ '.' :: [digitCharOf (a / 10 % 10), digitCharOf (a % 10)]
  if m < 0 then '-' :: ds else ds

/-- Models Python two-decimal formatting of a price. -/
def fmt2 (p : ℚ) : String :=
  ⟨fmt2Chars p⟩

/-- Models Python `int(...)` on a character list: optional sign then digits. -/
def pyIntCore (cs : List Char) : Option Int :=
  match cs with
  | [] => none
  | c :: rest =>
    if c = '-' then (digitsValNE rest).map (fun n => -(n : Int))
    else if c = '+' then (digitsValNE rest).map (fun n => (n : Int))
    else (digitsValNE cs).map (fun n => (n : Int))

/-- Models Python `int(...)` on a string. -/
def pyInt (s : String) : Option Int :=
  pyIntCore s.data

/-- Body of the unsigned decimal literal parser, taking the leading digit
run and the remainder separately. -/
def parseUnsignedDecAux (intPart : List Char) : List Char → Option ℚ
  | [] =>
    if intPart.isEmpty then none
    else (digitsVal intPart).map (fun v => (v : ℚ))
  | '.' :: frac =>
    if intPart.isEmpty && frac.isEmpty then none
    else
      match digitsVal intPart, digitsVal frac with
      | some iv, some fv => some ((iv : ℚ) + (fv : ℚ) / (10 : ℚ) ^ frac.length)
      | _, _ => none
  | _ => none

/-- Unsigned decimal literal: digits, optionally a point and more digits. -/
def parseUnsignedDec (cs : List Char) : Option ℚ :=
  parseUnsignedDecAux (cs.takeWhile isDig) (cs.dropWhile isDig)

/-- Models Python `float(...)` on a character list. -/
def pyFloatCore (cs : List Char) : Option ℚ :=
  match cs with
  | [] => none
  | c :: rest =>
    if c = '-' then (parseUnsignedDec rest).map (fun q => -q)
    else if c = '+' then parseUnsignedDec rest
    else parseUnsignedDec cs

/-- Models Python `float(...)` on a string. -/
def pyFloat (s : String) : Option ℚ :=
  pyFloatCore s.data

/-- Models `price_str.replace(",", ".")` from `load_from_csv`. -/
def commaToDot (s : String) : String :=
  ⟨s.data.map (fun c => if c = ',' then '.' else c)⟩

/-- The `Item` entity of `main.py` (name, price, category, quantity and the
derived `_id` computed in `Item.__init__`). -/
structure Item where
  name : String
  price : ℚ
  category : String
  quantity : Int
  _id : String
deriving DecidableEq

/-- Models `Item.__init__`: trims name and category and derives
`_id = f"{self.name.lower()}_{self.category.lower()}"`. -/
def Item.create (name : String) (price : ℚ) (category : String) (quantity : Int) : Item :=
  let n := pyStrip name
  let c := pyStrip category
  { name := n, price := price, category := c, quantity := quantity,
    _id := pyLower n ++ "_" ++ pyLower c }

/-- Models `Item.total`: `price * quantity`. -/
def Item.total (it : Item) : ℚ :=
  it.price * (it.quantity : ℚ)

/-- Models `Item.get_id`. -/
def Item.get_id (it : Item) : String :=
  it._id

/-- Models `Item.add_quantity`: `quantity += int(amount)`. -/
def Item.add_quantity (it : Item) (amount : Int) : Item :=
  { it with quantity := it.quantity + amount }

/-- Models `Item.update_price`: replaces the price only when the new one is positive. -/
def Item.update_price (it : Item) (new_price : ℚ) : Item :=
  if new_price > 0 then { it with price := new_price } else it

/-- Models `Item.to_csv_row`: `[name, str(quantity), f"{price:.2f}", category]`. -/
def Item.to_csv_row (it : Item) : List String :=
  [it.name, intStr it.quantity, fmt2 it.price, it.category]

/-- The `InventoryManager.items` dict: insertion-ordered association list
from identity key to item, with unique keys. -/
abbrev Catalog := List (String × Item)

/-- The key `f"{name.lower()}_{category.lower()}"` computed by
`add_item` (line 86) and `load_from_csv` (line 66). Note: no strip. -/
def addKey (name category : String) : String :=
  pyLower name ++ "_" ++ pyLower category

/-- Dict lookup `self.items[item_id]` (first entry with the key). -/
def lookupKey (inv : Catalog) (key : String) : Option Item :=
  (inv.find? (fun e => decide (e.1 = key))).map Prod.snd

/-- Dict membership `item_id in self.items`. -/
def containsKey (inv : Catalog) (key : String) : Bool :=
  inv.any (fun e => decide (e.1 = key))

/-- In-place update of the entry holding `key` (dict item assignment). -/
def updateItem : Catalog → String → (Item → Item) → Catalog
  | [], _, _ => []
  | e :: m, key, f =>
    if e.1 = key then (e.1, f e.2) :: m else e :: updateItem m key f

/-- Models `InventoryManager.add_item`: merge into the existing entry when the key
is present, otherwise insert a fresh `Item`; returns `True` in both
branches (`False` is reachable only through the `except` clause). -/
def add_item (inv : Catalog) (name : String) (price : ℚ) (category : String)
    (quantity : Int) : Bool × Catalog :=
  let item_id := addKey name category
  if containsKey inv item_id then
    (true, updateItem inv item_id (fun it => it.add_quantity quantity))
  else
    (true, inv ++ [(item_id, Item.create name price category quantity)])

/-- The `else` branch of `remove_item`: drop every entry whose stored item
name matches case-insensitively; report whether any was dropped. -/
def removeBulk (inv : Catalog) (name : String) : Bool × Catalog :=
  (inv.any (fun e => decide (pyLower e.2.name = pyLower name)),
   inv.filter (fun e => !(decide (pyLower e.2.name = pyLower name))))

/-- Models `InventoryManager.remove_item`. A `None` or empty category is falsy in
Python, selecting the bulk branch; otherwise the single dict entry with the
computed key is deleted when present. -/
def remove_item (inv : Catalog) (name : String) (category : Option String) :
    Bool × Catalog :=
  match category with
  | some c =>
    if c = "" then removeBulk inv name
    else
      let item_id := addKey name c
      if containsKey inv item_id then
        (true, inv.eraseP (fun e => decide (e.1 = item_id)))
      else (false, inv)
  | none => removeBulk inv name

/-- Models `InventoryManager.search_items`: case-insensitive substring match on
name or category over the stored items, in insertion order. -/
def startsWithCL : List Char → List Char → Bool
  | [], _ => true
  | _ :: _, [] => false
  | x :: xs, y :: ys => x = y && startsWithCL xs ys

/-- Python `in` on strings: substring containment over character lists. -/
def containsSub (a : List Char) : List Char → Bool
  | [] => a.isEmpty
  | y :: ys => startsWithCL a (y :: ys) || containsSub a ys

/-- Models `InventoryManager.search_items` body. -/
def search_items (query : String) (inv : Catalog) : List Item :=
  let q := pyLower query
  (inv.map Prod.snd).filter
    (fun it => containsSub q.data (pyLower it.name).data ||
               containsSub q.data (pyLower it.category).data)

/-- Models `InventoryManager.get_sorted_items`: stable sort of the stored items by
the requested key (Python `list.sort` is stable; for a total key order the
stable result is unique, so insertion sort models it exactly). Any other
string, such as `"none"`, leaves the insertion order unchanged. -/
def get_sorted_items (sort_by : String) (inv : Catalog) : List Item :=
  let items_list := inv.map Prod.snd
  if sort_by = "name" then
    List.insertionSort (fun x y => pyLower x.name ≤ pyLower y.name) items_list
  else if sort_by = "price" then
    List.insertionSort (fun x y => x.price ≤ y.price) items_list
  else if sort_by = "quantity" then
    List.insertionSort (fun x y => x.quantity ≤ y.quantity) items_list
  else if sort_by = "category" then
    List.insertionSort (fun x y => pyLower x.category ≤ pyLower y.category) items_list
  else if sort_by = "total" then
    List.insertionSort (fun x y => x.total ≤ y.total) items_list
  else items_list

/-- Models `category_totals.get(cat, 0) + item.total()` dict update from
`_print_summary`: add to the entry in place, or append a new one. -/
def updateAdd : List (String × ℚ) → String → ℚ → List (String × ℚ)
  | [], key, v => [(key, v)]
  | e :: m, key, v =>
    if e.1 = key then (e.1, e.2 + v) :: m else e :: updateAdd m key v

/-- The per-category totals built by `_print_summary` (lines 222-226). -/
def categoryTotals (items : List Item) : List (String × ℚ) :=
  items.foldl (fun acc it => updateAdd acc it.category it.total) []

/-- Sum of the values of a string-keyed table
(`sum(category_totals.values())`). -/
def sumVals (m : List (String × ℚ)) : ℚ :=
  (m.map Prod.snd).sum

/-- The record returned by `InventoryManager.get_statistics`. -/
structure Stats where
  total_items : Nat
  total_value : ℚ
  categories : Nat
deriving DecidableEq

/-- Models `InventoryManager.get_statistics`. -/
def get_statistics (inv : Catalog) : Stats :=
  if inv.isEmpty then ⟨0, 0, 0⟩
  else
    ⟨inv.length,
     ((inv.map Prod.snd).map Item.total).sum,
     ((inv.map Prod.snd).map (fun it => it.category)).dedup.length⟩

/-- One iteration of the row loop in `load_from_csv` (lines 52-73): skip
short rows, parse quantity and price (comma tolerated as decimal point),
then merge by key or insert a fresh `Item`. -/
def processRow (inv : Catalog) (row : List String) : Catalog :=
  match row with
  | name :: qty_str :: price_str :: category :: _ =>
    match pyInt qty_str, pyFloat (commaToDot price_str) with
    | some quantity, some price =>
      let item_id := addKey name category
      if containsKey inv item_id then
        updateItem inv item_id (fun it => it.add_quantity quantity)
      else
        inv ++ [(item_id, Item.create name price category quantity)]
    | _, _ => inv
  | _ => inv

/-- The whole row loop of `load_from_csv` over already-decoded rows. -/
def loadRows (inv : Catalog) (rows : List (List String)) : Catalog :=
  rows.foldl processRow inv

/-- The rows written by `InventoryManager.save_to_csv`: a header row
followed by the items sorted by name (the file encoding itself is the
serialization collaborator and stays outside the model). -/
def save_to_csv_rows (inv : Catalog) : List (List String) :=
  ["Name", "Quantity", "Price (€)", "Category"] ::
    (get_sorted_items ("name") inv).map Item.to_csv_row

/-- The observable tuple of one catalog entry used by the round-trip
property: identity key, quantity, price, category. -/
def tupleOf (e : String × Item) : String × Int × ℚ × String :=
  (e.2._id, e.2.quantity, e.2.price, e.2.category)

/-- Models `Item.__init__` when both numeric arguments arrive as raw
strings: `float(price)` is evaluated, then `int(quantity)`; there is no
sign check anywhere in the constructor. -/
def item_create_str (name price_str category qty_str : String) : Option Item :=
  match pyFloat price_str, pyInt qty_str with
  | some p, some q => some (Item.create name p category q)
  | _, _ => none

/- ### Helper lemmas about the association-list dictionary -/

theorem containsKey_nil (key : String) : containsKey [] key = false := rfl

theorem containsKey_cons (e : String × Item) (m : Catalog) (key : String) :
    containsKey (e :: m) key = (decide (e.1 = key) || containsKey m key) := by
  simp [containsKey]

theorem containsKey_false_head {e : String × Item} {m : Catalog} {key : String}
    (h : containsKey (e :: m) key = false) : e.1 ≠ key ∧ containsKey m key = false := by
  rw [containsKey_cons] at h
  rcases Bool.or_eq_false_iff.mp h with ⟨h1, h2⟩
  exact ⟨by simpa using h1, h2⟩

theorem updateItem_append_fresh (inv : Catalog) (key : String) (it : Item)
    (f : Item → Item) (h : containsKey inv key = false) :
    updateItem (inv ++ [(key, it)]) key f = inv ++ [(key, f it)] := by
  induction inv with
  | nil => simp [updateItem]
  | cons e m ih =>
    rcases containsKey_false_head h with ⟨h1, h2⟩
    simpa [updateItem, h1] using ih h2

theorem lookupKey_append_fresh (inv : Catalog) (key : String) (it : Item)
    (h : containsKey inv key = false) :
    lookupKey (inv ++ [(key, it)]) key = some it := by
  induction inv with
  | nil => simp [lookupKey]
  | cons e m ih =>
    rcases containsKey_false_head h with ⟨h1, h2⟩
    simpa [lookupKey, List.find?, h1] using ih h2

theorem filter_key_append_fresh (inv : Catalog) (key : String) (it : Item)
    (h : containsKey inv key = false) :
    (inv ++ [(key, it)]).filter (fun e => decide (e.1 = key)) = [(key, it)] := by
  induction inv with
  | nil => simp
  | cons e m ih =>
    rcases containsKey_false_head h with ⟨h1, h2⟩
    simpa [List.filter, h1] using ih h2

theorem containsKey_append_self (inv : Catalog) (key : String) (it : Item) :
    containsKey (inv ++ [(key, it)]) key = true := by
  simp [containsKey]

/- ### C1 -/

/-- C1: the claim states that (name, category) pairs differing only by
letter case or by surrounding whitespace get the same identity key and
consolidate. This is false for whitespace: the keys computed by
`add_item` and `load_from_csv` lower-case but never strip, so a leading
blank yields a distinct key and a second catalog entry. -/
theorem addKey_whitespace_counterexample :
    addKey (" Widget") ("Tools") ≠ addKey ("Widget") ("Tools") ∧
    ((add_item (add_item [] (" Widget") 1 ("Tools") 1).2 ("Widget") 1 ("Tools") 1).2).length = 2 := by
  decide

/-- C1 (amended): for (name, category) pairs that differ only by letter
case — equal after lower-casing — the identity key is identical, and the
two adds consolidate into a single stored entry. Pairs differing by
leading or trailing whitespace are distinct keys instead. -/
theorem addKey_case_insensitive (n n' c c' : String) (p p' : ℚ) (q q' : Int)
    (h1 : pyLower n = pyLower n') (h2 : pyLower c = pyLower c') :
    addKey n c = addKey n' c' ∧
    ((add_item (add_item [] n p c q).2 n' p' c' q').2).length = 1 := by
  have hk : addKey n' c' = addKey n c := by simp [addKey, h1, h2]
  constructor
  · exact hk.symm
  · have h0 : add_item [] n p c q = (true, [(addKey n c, Item.create n p c q)]) := by
      simp [add_item, containsKey]
    rw [h0]
    simp [add_item, hk, containsKey, updateItem]

/-- Witness for the amended C1 at a concrete case-differing pair. -/
theorem addKey_case_insensitive_witness :
    pyLower ("Widget") = pyLower ("wIDGET") ∧ pyLower ("Tools") = pyLower ("TOOLS") ∧
    (addKey ("Widget") ("Tools") = addKey ("wIDGET") ("TOOLS") ∧
     ((add_item (add_item [] ("Widget") (5/2) ("Tools") 3).2 ("wIDGET") (999/100) ("TOOLS") 2).2).length = 1) :=
  ⟨by decide, by decide,
   addKey_case_insensitive ("Widget") ("wIDGET") ("Tools") ("TOOLS") (5/2) (999/100) 3 2
     (by decide) (by decide)⟩

/- ### C2 -/

/-- C2: adding (n, c) with price p1 and quantity q1 into a catalog that
does not hold the key, then adding any key-equal (n', c') with p2, q2,
leaves exactly one entry for that key, holding quantity q1 + q2 and the
first price p1 — the merge never writes p2. -/
theorem add_twice_merges (inv : Catalog) (n c n' c' : String) (p1 p2 : ℚ) (q1 q2 : Int)
    (hkey : addKey n' c' = addKey n c)
    (habs : containsKey inv (addKey n c) = false) :
    lookupKey (add_item (add_item inv n p1 c q1).2 n' p2 c' q2).2 (addKey n c) =
      some (Item.create n p1 c (q1 + q2)) ∧
    ((add_item (add_item inv n p1 c q1).2 n' p2 c' q2).2.filter
      (fun e => decide (e.1 = addKey n c))).length = 1 := by
  have hsnd1 : (add_item inv n p1 c q1).2 =
      inv ++ [(addKey n c, Item.create n p1 c q1)] := by
    simp [add_item, habs]
  rw [hsnd1]
  have hsnd2 : (add_item (inv ++ [(addKey n c, Item.create n p1 c q1)]) n' p2 c' q2).2 =
      inv ++ [(addKey n c, Item.create n p1 c (q1 + q2))] := by
    simp only [add_item, hkey, containsKey_append_self, if_true,
      updateItem_append_fresh inv (addKey n c) (Item.create n p1 c q1)
        (fun it => it.add_quantity q2) habs]
    simp [Item.create, Item.add_quantity]
  rw [hsnd2]
  refine ⟨lookupKey_append_fresh inv (addKey n c) _ habs, ?_⟩
  rw [filter_key_append_fresh inv (addKey n c) _ habs]
  rfl

/-- Witness for C2 at the spec's own scenario: Widget/Tools at 2.50 x 3
then widget/TOOLS at 9.99 x 2 gives one entry, quantity 5, price 2.50. -/
theorem add_twice_merges_witness :
    addKey ("widget") ("TOOLS") = addKey ("Widget") ("Tools") ∧
    containsKey [] (addKey ("Widget") ("Tools")) = false ∧
    (lookupKey (add_item (add_item [] ("Widget") (5/2) ("Tools") 3).2 ("widget") (999/100) ("TOOLS") 2).2
        (addKey ("Widget") ("Tools")) =
      some (Item.create ("Widget") (5/2) ("Tools") (3 + 2)) ∧
     ((add_item (add_item [] ("Widget") (5/2) ("Tools") 3).2 ("widget") (999/100) ("TOOLS") 2).2.filter
        (fun e => decide (e.1 = addKey ("Widget") ("Tools")))).length = 1) :=
  ⟨by decide, by decide,
   add_twice_merges [] ("Widget") ("Tools") ("widget") ("TOOLS") (5/2) (999/100) 3 2
     (by decide) (by decide)⟩

/- ### C4 -/

/-- C4: the claim states that the value returned by `add_item`
distinguishes creation from merge. It does not: here the first call
creates (the key is absent) and the second merges (the key is present),
yet both calls return the same value `True`. -/
theorem add_item_return_counterexample :
    containsKey [] (addKey ("Widget") ("Tools")) = false ∧
    containsKey (add_item [] ("Widget") 2 ("Tools") 3).2 (addKey ("Widget") ("Tools")) = true ∧
    (add_item [] ("Widget") 2 ("Tools") 3).1 =
      (add_item (add_item [] ("Widget") 2 ("Tools") 3).2 ("Widget") (99/10) ("Tools") 2).1 := by
  decide

/-- C4 (amended): `add_item` returns `True` in the create branch and in
the merge branch alike — the boolean reports success, not which of the
two cases happened; only the printed message differs. -/
theorem add_item_always_true (inv : Catalog) (n : String) (p : ℚ) (c : String) (q : Int) :
    (add_item inv n p c q).1 = true := by
  cases h : containsKey inv (addKey n c) <;> simp [add_item, h]

/- ### C5 -/

/-- C5: the claim states creation fails on a negative price or quantity.
It does not: `Item.__init__` only coerces, so the item is created
silently with price -5 and quantity -3. -/
theorem item_create_negative_counterexample :
    item_create_str ("Widget") ("-5") ("Tools") ("-3") =
      some (Item.create ("Widget") (-5) ("Tools") (-3)) ∧
    (Item.create ("Widget") (-5) ("Tools") (-3)).price < 0 ∧
    (Item.create ("Widget") (-5) ("Tools") (-3)).quantity < 0 := by
  decide

/-- C5 (amended): item creation fails exactly when the price cannot be
coerced to a number or the quantity cannot be coerced to an integer;
no sign is checked, so negative values are accepted silently. -/
theorem item_create_str_isSome (n ps c qs : String) :
    (item_create_str n ps c qs).isSome = ((pyFloat ps).isSome && (pyInt qs).isSome) := by
  unfold item_create_str
  cases pyFloat ps <;> cases pyInt qs <;> rfl

/- ### C7 -/

/-- C7: a row with fewer than 4 columns, or whose quantity or price field
fails to parse, is skipped: the catalog is returned unchanged (no item
created, none modified) and the loop continues with the remaining rows. -/
theorem malformed_rows_skipped (inv : Catalog) (rows : List (List String)) :
    (∀ row : List String, row.length < 4 →
       processRow inv row = inv ∧ loadRows inv (row :: rows) = loadRows inv rows) ∧
    (∀ (nm qs ps ct : String) (rest : List String),
       pyInt qs = none ∨ pyFloat (commaToDot ps) = none →
       processRow inv (nm :: qs :: ps :: ct :: rest) = inv ∧
       loadRows inv ((nm :: qs :: ps :: ct :: rest) :: rows) = loadRows inv rows) := by
  constructor
  · intro row hlen
    have hskip : processRow inv row = inv := by
      match row with
      | [] => rfl
      | [_] => rfl
      | [_, _] => rfl
      | [_, _, _] => rfl
      | _ :: _ :: _ :: _ :: _ => simp at hlen; omega
    exact ⟨hskip, by simp [loadRows, hskip]⟩
  · intro nm qs ps ct rest h
    have hskip : processRow inv (nm :: qs :: ps :: ct :: rest) = inv := by
      rcases h with h | h
      · simp [processRow, h]
      · cases hq : pyInt qs <;> simp [processRow, h, hq]
    exact ⟨hskip, by simp [loadRows, hskip]⟩

/-- Witness for C7: the spec's two-column row is skipped and the load of
the remaining rows proceeds as if it were absent. -/
theorem malformed_rows_skipped_witness :
    ([("a"), ("b")] : List String).length < 4 ∧
    processRow [] [("a"), ("b")] = [] ∧
    loadRows [] [[("a"), ("b")]] = loadRows [] [] :=
  ⟨by decide,
   ((malformed_rows_skipped [] []).1 [("a"), ("b")] (by decide)).1,
   ((malformed_rows_skipped [] []).1 [("a"), ("b")] (by decide)).2⟩

/- ### C9 -/

theorem sumVals_nil : sumVals [] = 0 := rfl

theorem sumVals_cons (e : String × ℚ) (m : List (String × ℚ)) :
    sumVals (e :: m) = e.2 + sumVals m := by
  simp [sumVals]

theorem sumVals_updateAdd (m : List (String × ℚ)) (key : String) (v : ℚ) :
    sumVals (updateAdd m key v) = sumVals m + v := by
  induction m with
  | nil => simp [updateAdd, sumVals]
  | cons e m ih =>
    by_cases h : e.1 = key
    · simp [updateAdd, h, sumVals_cons]; ring
    · simp [updateAdd, h, sumVals_cons, ih]; ring

theorem categoryTotals_foldl (items : List Item) :
    ∀ acc : List (String × ℚ),
      sumVals (items.foldl (fun a it => updateAdd a it.category it.total) acc) =
        sumVals acc + (items.map Item.total).sum := by
  induction items with
  | nil => intro acc; simp
  | cons it items ih =>
    intro acc
    simp only [List.foldl_cons, List.map_cons, List.sum_cons, ih, sumVals_updateAdd]
    ring

/-- C9: the sum of the per-category totals of `_print_summary` equals the
sum of every item's price times quantity (the `total_value` of
`get_statistics`); in the rational model the two are exactly equal, hence
within the stated tolerance of one billionth. -/
theorem categoryTotals_sum_eq_total (items : List Item) (inv : Catalog) :
    sumVals (categoryTotals items) = (items.map Item.total).sum ∧
    |sumVals (categoryTotals items) - (items.map Item.total).sum| ≤ 1 / 1000000000 ∧
    (get_statistics inv).total_value = ((inv.map Prod.snd).map Item.total).sum := by
  have h : sumVals (categoryTotals items) = (items.map Item.total).sum := by
    simpa [categoryTotals, sumVals_nil] using categoryTotals_foldl items []
  refine ⟨h, by rw [h]; simp, ?_⟩
  by_cases he : inv.isEmpty
  · have : inv = [] := by simpa using he
    subst this
    simp [get_statistics]
  · simp [get_statistics, he]

/- ### C10 -/

theorem containsSub_nil_left (l : List Char) : containsSub [] l = true := by
  cases l <;> simp [containsSub, startsWithCL]

/-- C10: searching with the empty query returns every stored item, in
storage order — the empty string is a substring of every name. -/
theorem search_items_empty (inv : Catalog) :
    search_items ("") inv = inv.map Prod.snd := by
  have hq : (pyLower ("")).data = [] := rfl
  simp [search_items, hq, containsSub_nil_left]

/- ### C3 -/

theorem containsKey_false_iff (m : Catalog) (key : String) :
    containsKey m key = false ↔ ∀ e ∈ m, e.1 ≠ key := by
  simp [containsKey]

theorem containsKey_true_iff (m : Catalog) (key : String) :
    containsKey m key = true ↔ ∃ e ∈ m, e.1 = key := by
  simp [containsKey]

theorem filter_ne_key_all (m : Catalog) (key : String)
    (h : ∀ e ∈ m, e.1 ≠ key) :
    m.filter (fun e => !(decide (e.1 = key))) = m := by
  induction m with
  | nil => rfl
  | cons e m ih =>
    have h1 : e.1 ≠ key := h e (by simp)
    have hp : (!(decide (e.1 = key))) = true := by simp [h1]
    rw [List.filter_cons, hp, if_pos rfl, ih (fun e' he' => h e' (by simp [he']))]

theorem eraseP_key_filter (inv : Catalog) (key : String)
    (hnd : (inv.map Prod.fst).Nodup) :
    inv.eraseP (fun e => decide (e.1 = key)) =
      inv.filter (fun e => !(decide (e.1 = key))) := by
  induction inv with
  | nil => rfl
  | cons e m ih =>
    simp only [List.map_cons, List.nodup_cons] at hnd
    by_cases h : e.1 = key
    · have hall : ∀ e' ∈ m, e'.1 ≠ key := by
        intro e' he' hk
        exact hnd.1 (by rw [h, ← hk]; exact List.mem_map_of_mem Prod.fst he')
      have hp : (!(decide (e.1 = key))) = false := by simp [h]
      rw [List.eraseP_cons_of_pos (by simp [h]), List.filter_cons, hp]
      simp only [Bool.false_eq_true, if_false]
      exact (filter_ne_key_all m key hall).symm
    · have hp : (!(decide (e.1 = key))) = true := by simp [h]
      rw [List.eraseP_cons_of_neg (by simp [h]), List.filter_cons, hp, if_pos rfl,
        ih hnd.2]

/-- C3: with a nonempty category, `remove_item` on a present key returns
`True` and deletes exactly the entry with that key, keeping every other
entry in place; on an absent key it returns `False` with the catalog
entirely unchanged. -/
theorem remove_item_exact (inv : Catalog) (n c : String)
    (hc : c ≠ "") (hnd : (inv.map Prod.fst).Nodup) :
    (containsKey inv (addKey n c) = true →
       (remove_item inv n (some c)).1 = true ∧
       (remove_item inv n (some c)).2 =
         inv.filter (fun e => !(decide (e.1 = addKey n c))) ∧
       (remove_item inv n (some c)).2.length + 1 = inv.length) ∧
    (containsKey inv (addKey n c) = false →
       remove_item inv n (some c) = (false, inv)) := by
  constructor
  · intro hin
    have hr : remove_item inv n (some c) =
        (true, inv.eraseP (fun e => decide (e.1 = addKey n c))) := by
      simp [remove_item, hc, hin]
    rw [hr]
    refine ⟨rfl, eraseP_key_filter inv (addKey n c) hnd, ?_⟩
    obtain ⟨e, he, hek⟩ := (containsKey_true_iff inv (addKey n c)).mp hin
    exact List.length_eraseP_add_one he (by simp [hek])
  · intro hout
    simp [remove_item, hc, hout]

/-- Witness for C3 on a concrete two-entry catalog. -/
theorem remove_item_exact_witness :
    (("Tools") : String) ≠ ("") ∧
    (([(("widget_tools"), Item.create ("Widget") 1 ("Tools") 2),
       (("bolt_hw"), Item.create ("Bolt") 2 ("Hw") 1)] : Catalog).map Prod.fst).Nodup ∧
    ((containsKey ([(("widget_tools"), Item.create ("Widget") 1 ("Tools") 2),
         (("bolt_hw"), Item.create ("Bolt") 2 ("Hw") 1)] : Catalog) (addKey ("Widget") ("Tools")) = true →
       (remove_item [(("widget_tools"), Item.create ("Widget") 1 ("Tools") 2),
          (("bolt_hw"), Item.create ("Bolt") 2 ("Hw") 1)] ("Widget") (some ("Tools"))).1 = true ∧
       (remove_item [(("widget_tools"), Item.create ("Widget") 1 ("Tools") 2),
          (("bolt_hw"), Item.create ("Bolt") 2 ("Hw") 1)] ("Widget") (some ("Tools"))).2 =
         ([(("widget_tools"), Item.create ("Widget") 1 ("Tools") 2),
           (("bolt_hw"), Item.create ("Bolt") 2 ("Hw") 1)] : Catalog).filter
             (fun e => !(decide (e.1 = addKey ("Widget") ("Tools")))) ∧
       (remove_item [(("widget_tools"), Item.create ("Widget") 1 ("Tools") 2),
          (("bolt_hw"), Item.create ("Bolt") 2 ("Hw") 1)] ("Widget") (some ("Tools"))).2.length + 1 =
         ([(("widget_tools"), Item.create ("Widget") 1 ("Tools") 2),
           (("bolt_hw"), Item.create ("Bolt") 2 ("Hw") 1)] : Catalog).length) ∧
     (containsKey ([(("widget_tools"), Item.create ("Widget") 1 ("Tools") 2),
         (("bolt_hw"), Item.create ("Bolt") 2 ("Hw") 1)] : Catalog) (addKey ("Widget") ("Tools")) = false →
       remove_item [(("widget_tools"), Item.create ("Widget") 1 ("Tools") 2),
          (("bolt_hw"), Item.create ("Bolt") 2 ("Hw") 1)] ("Widget") (some ("Tools")) =
         (false, [(("widget_tools"), Item.create ("Widget") 1 ("Tools") 2),
                  (("bolt_hw"), Item.create ("Bolt") 2 ("Hw") 1)]))) :=
  ⟨by decide, by decide,
   remove_item_exact [(("widget_tools"), Item.create ("Widget") 1 ("Tools") 2),
     (("bolt_hw"), Item.create ("Bolt") 2 ("Hw") 1)] ("Widget") ("Tools") (by decide) (by decide)⟩

/- ### C8 -/

theorem filter_orderedInsert_neg {α : Type} (r : α → α → Prop) [DecidableRel r]
    (p : α → Bool) (x : α) (hx : p x = false) (l : List α) :
    (List.orderedInsert r x l).filter p = l.filter p := by
  induction l with
  | nil => simp [List.orderedInsert, hx]
  | cons b l ih =>
    by_cases h : r x b
    · simp [List.orderedInsert, h, List.filter_cons, hx]
    · simp [List.orderedInsert, h, List.filter_cons, ih]

theorem filter_orderedInsert_pos {α κ : Type} [LinearOrder κ] [DecidableEq κ]
    (k : α → κ) (x : α)
    (v : κ) (hx : k x = v) (l : List α) :
    (List.orderedInsert (fun a b => k a ≤ k b) x l).filter (fun y => decide (k y = v)) =
      x :: l.filter (fun y => decide (k y = v)) := by
  induction l with
  | nil => simp [List.orderedInsert, hx]
  | cons b l ih =>
    by_cases h : k x ≤ k b
    · have hpx : (decide (k x = v)) = true := by simp [hx]
      simp only [List.orderedInsert, if_pos h, List.filter_cons, hpx, if_pos rfl]
      simp
    · have hb : ¬ (k b = v) := fun hbv => h (le_of_eq (hx.trans hbv.symm))
      simp [List.orderedInsert, h, List.filter_cons, hb, ih]

theorem insertionSort_stable_filter {α κ : Type} [LinearOrder κ] [DecidableEq κ]
    (k : α → κ)
    (v : κ) (l : List α) :
    (List.insertionSort (fun a b => k a ≤ k b) l).filter (fun y => decide (k y = v)) =
      l.filter (fun y => decide (k y = v)) := by
  induction l with
  | nil => rfl
  | cons a l ih =>
    simp only [List.insertionSort]
    by_cases h : k a = v
    · rw [filter_orderedInsert_pos k a v h, ih, List.filter_cons]
      simp [h]
    · rw [filter_orderedInsert_neg _ _ a (by simp [h]), ih, List.filter_cons]
      simp [h]

/-- C8: `get_sorted_items` is stable for each of the five sort keys — for
every key value v, the items whose sort key equals v appear in the output
in exactly their input order (their filtered subsequence is unchanged) —
and any unknown key such as `"none"` returns the input order itself. -/
theorem get_sorted_items_stable (inv : Catalog) :
    get_sorted_items ("none") inv = inv.map Prod.snd ∧
    (∀ v : String,
      (get_sorted_items ("name") inv).filter (fun x => decide (pyLower x.name = v)) =
        (inv.map Prod.snd).filter (fun x => decide (pyLower x.name = v))) ∧
    (∀ v : ℚ,
      (get_sorted_items ("price") inv).filter (fun x => decide (x.price = v)) =
        (inv.map Prod.snd).filter (fun x => decide (x.price = v))) ∧
    (∀ v : Int,
      (get_sorted_items ("quantity") inv).filter (fun x => decide (x.quantity = v)) =
        (inv.map Prod.snd).filter (fun x => decide (x.quantity = v))) ∧
    (∀ v : String,
      (get_sorted_items ("category") inv).filter (fun x => decide (pyLower x.category = v)) =
        (inv.map Prod.snd).filter (fun x => decide (pyLower x.category = v))) ∧
    (∀ v : ℚ,
      (get_sorted_items ("total") inv).filter (fun x => decide (x.total = v)) =
        (inv.map Prod.snd).filter (fun x => decide (x.total = v))) := by
  refine ⟨rfl, ?_, ?_, ?_, ?_, ?_⟩ <;> intro v
  · exact insertionSort_stable_filter (fun x : Item => pyLower x.name) v (inv.map Prod.snd)
  · exact insertionSort_stable_filter (fun x : Item => x.price) v (inv.map Prod.snd)
  · exact insertionSort_stable_filter (fun x : Item => x.quantity) v (inv.map Prod.snd)
  · exact insertionSort_stable_filter (fun x : Item => pyLower x.category) v (inv.map Prod.snd)
  · exact insertionSort_stable_filter (fun x : Item => x.total) v (inv.map Prod.snd)

/- ### C6: rendering / parsing round-trip lemmas -/

theorem digitVal_digitCharOf (d : Nat) (hd : d < 10) :
    digitVal (digitCharOf d) = some d := by
  interval_cases d <;> rfl

theorem isDig_digitCharOf (d : Nat) : isDig (digitCharOf d) = true := by
  unfold digitCharOf
  split <;> rfl

theorem isDig_ne_special {c : Char} (h : isDig c = true) :
    c ≠ '-' ∧ c ≠ '+' ∧ c ≠ '.' ∧ c ≠ ',' := by
  refine ⟨?_, ?_, ?_, ?_⟩ <;> rintro rfl <;> exact absurd h (by decide)

theorem digitsValGo_map (ds : List Nat) :
    ∀ a : Nat, (∀ d ∈ ds, d < 10) →
      digitsValGo a (ds.map digitCharOf) =
        some (ds.foldl (fun x d => 10 * x + d) a) := by
  induction ds with
  | nil => intro a _; rfl
  | cons d ds ih =>
    intro a h
    have hd : d < 10 := h d (by simp)
    simp only [List.map_cons, digitsValGo, digitVal_digitCharOf d hd, List.foldl_cons]
    exact ih (10 * a + d) (fun d' hd' => h d' (by simp [hd']))

theorem foldl_base10 (ds : List Nat) :
    ∀ a : Nat, (ds.reverse).foldl (fun x d => 10 * x + d) a =
      a * 10 ^ ds.length + Nat.ofDigits 10 ds := by
  induction ds with
  | nil => intro a; simp [Nat.ofDigits_nil]
  | cons d ds ih =>
    intro a
    simp only [List.reverse_cons, List.foldl_append, List.foldl_cons, List.foldl_nil, ih,
      List.length_cons, Nat.ofDigits_cons]
    ring

theorem digitsVal_natStrChars (n : Nat) : digitsVal (natStrChars n) = some n := by
  by_cases h : n = 0
  · subst h; rfl
  · unfold natStrChars digitsVal
    rw [if_neg h]
    rw [digitsValGo_map ((Nat.digits 10 n).reverse) 0
      (fun d hd => Nat.digits_lt_base (by norm_num) (List.mem_reverse.mp hd))]
    rw [foldl_base10]
    simp [Nat.ofDigits_digits]

theorem natStrChars_ne_nil (n : Nat) : natStrChars n ≠ [] := by
  unfold natStrChars
  by_cases h : n = 0
  · simp [h]
  · rw [if_neg h]
    simp [Nat.digits_ne_nil_iff_ne_zero.mpr h]

theorem natStrChars_all_isDig (n : Nat) :
    ∀ c ∈ natStrChars n, isDig c = true := by
  intro c hc
  unfold natStrChars at hc
  by_cases h : n = 0
  · rw [if_pos h] at hc
    simp at hc
    subst hc; rfl
  · rw [if_neg h] at hc
    obtain ⟨d, _, rfl⟩ := List.mem_map.mp hc
    exact isDig_digitCharOf d

theorem pyIntCore_intStrChars (q : Int) : pyIntCore (intStrChars q) = some q := by
  by_cases hq : q < 0
  · unfold intStrChars
    rw [if_pos hq]
    obtain ⟨c, cs, hcons⟩ := List.exists_cons_of_ne_nil (natStrChars_ne_nil q.natAbs)
    simp only [pyIntCore, if_pos rfl]
    have hne : ¬ (natStrChars q.natAbs).isEmpty = true := by
      simp [List.isEmpty_iff, natStrChars_ne_nil]
    simp only [digitsValNE, hne, if_false, digitsVal_natStrChars, Option.map_some]
    have habs : -(q.natAbs : Int) = q := by omega
    show some (-(q.natAbs : Int)) = some q
    rw [habs]
  · obtain ⟨c, cs, hcons⟩ := List.exists_cons_of_ne_nil (natStrChars_ne_nil q.natAbs)
    have hcdig : isDig c = true := by
      apply natStrChars_all_isDig q.natAbs
      rw [hcons]; simp
    obtain ⟨hm, hp, _, _⟩ := isDig_ne_special hcdig
    unfold intStrChars
    rw [if_neg hq, hcons]
    simp only [pyIntCore, if_neg hm, if_neg hp]
    have hne : ¬ (c :: cs).isEmpty = true := by simp
    have hval : digitsVal (c :: cs) = some q.natAbs := by
      rw [← hcons]; exact digitsVal_natStrChars q.natAbs
    simp only [digitsValNE, hne, if_false, hval, Option.map_some]
    have habs : (q.natAbs : Int) = q := by omega
    show some ((q.natAbs : Int)) = some q
    rw [habs]

/- ### C6 -/

theorem int_ediv_one (a : Int) : a.ediv 1 = a := by
  cases a with
  | ofNat m =>
    show Int.ediv (Int.ofNat m) (Int.ofNat 1) = Int.ofNat m
    simp [Int.ediv]
  | negSucc m =>
    show Int.ediv (Int.negSucc m) (Int.ofNat 1) = Int.negSucc m
    simp [Int.ediv]

theorem qfloor_natCast (n : Nat) : qfloor (n : ℚ) = n := by
  unfold qfloor
  rw [Rat.num_natCast, Rat.den_natCast]
  simp [int_ediv_one]

theorem bankersRound_natCast (n : Nat) : bankersRound (n : ℚ) = n := by
  have h : (n : ℚ) - (((n : Nat) : Int) : ℚ) = 0 := by push_cast; ring
  simp only [bankersRound, qfloor_natCast, h]
  norm_num

theorem fmt2Chars_div100 (n : Nat) :
    fmt2Chars ((n : ℚ) / 100) =
      natStrChars (n / 100) ++ '.' :: [digitCharOf (n / 10 % 10), digitCharOf (n % 10)] := by
  have harg : ((n : ℚ) / 100) * 100 = (n : ℚ) := by
    field_simp
  have hm : bankersRound (((n : ℚ) / 100) * 100) = ((n : Nat) : Int) := by
    rw [harg, bankersRound_natCast]
  have hneg : ¬ (((n : Nat) : Int) < 0) := by omega
  simp only [fmt2Chars, hm, hneg, if_false, Int.natAbs_ofNat]

theorem takeWhile_all_append (p : Char → Bool) (l1 : List Char) (c : Char)
    (l2 : List Char) (h1 : ∀ a ∈ l1, p a = true) (hc : p c = false) :
    (l1 ++ c :: l2).takeWhile p = l1 ∧ (l1 ++ c :: l2).dropWhile p = c :: l2 := by
  induction l1 with
  | nil => simp [List.takeWhile, List.dropWhile, hc]
  | cons a l1 ih =>
    have ha : p a = true := h1 a (by simp)
    have hrec := ih (fun x hx => h1 x (by simp [hx]))
    simp [List.takeWhile_cons, List.dropWhile_cons, ha, hrec.1, hrec.2]

set_option maxRecDepth 4000 in
theorem parseUnsignedDec_fmt (n : Nat) :
    parseUnsignedDec
        (natStrChars (n / 100) ++ '.' :: [digitCharOf (n / 10 % 10), digitCharOf (n % 10)]) =
      some ((n : ℚ) / 100) := by
  obtain ⟨htake, hdrop⟩ := takeWhile_all_append isDig (natStrChars (n / 100)) '.'
    [digitCharOf (n / 10 % 10), digitCharOf (n % 10)]
    (natStrChars_all_isDig (n / 100)) (by decide)
  unfold parseUnsignedDec
  rw [htake, hdrop]
  have hne : (natStrChars (n / 100)).isEmpty = false := by
    cases hcons : natStrChars (n / 100) with
    | nil => exact absurd hcons (natStrChars_ne_nil _)
    | cons a l => rfl
  have hfrac : digitsVal [digitCharOf (n / 10 % 10), digitCharOf (n % 10)] =
      some (n % 100) := by
    have h1 : digitVal (digitCharOf (n / 10 % 10)) = some (n / 10 % 10) :=
      digitVal_digitCharOf _ (by omega)
    have h2 : digitVal (digitCharOf (n % 10)) = some (n % 10) :=
      digitVal_digitCharOf _ (by omega)
    simp only [digitsVal, digitsValGo, h1, h2]
    congr 1
    omega
  simp only [parseUnsignedDecAux, hne, Bool.false_and, Bool.false_eq_true, if_false,
    digitsVal_natStrChars, hfrac]
  congr 1
  have h100 : ((10 : ℚ) ^ (([digitCharOf (n / 10 % 10), digitCharOf (n % 10)] : List Char).length)) = 100 := by
    norm_num
  rw [h100]
  have hsplit : 100 * (n / 100) + n % 100 = n := Nat.div_add_mod n 100
  have hc : ((100 * (n / 100) + n % 100 : Nat) : ℚ) = (n : ℚ) := by rw [hsplit]
  push_cast at hc
  field_simp
  linarith [hc]

theorem pyFloatCore_fmt2 (n : Nat) :
    pyFloatCore (fmt2Chars ((n : ℚ) / 100)) = some ((n : ℚ) / 100) := by
  rw [fmt2Chars_div100]
  obtain ⟨c, cs, hcons⟩ := List.exists_cons_of_ne_nil (natStrChars_ne_nil (n / 100))
  have hcdig : isDig c = true := by
    apply natStrChars_all_isDig (n / 100)
    rw [hcons]; simp
  obtain ⟨hm, hp, _, _⟩ := isDig_ne_special hcdig
  rw [hcons]
  simp only [pyFloatCore, List.cons_append, if_neg hm, if_neg hp]
  rw [← List.cons_append, ← hcons, parseUnsignedDec_fmt]

theorem isDig_ne_comma {c : Char} (h : isDig c = true) : c ≠ ',' :=
  (isDig_ne_special h).2.2.2

theorem mem_fmt2_body (c : Char) (a : Nat)
    (hc : c ∈ natStrChars (a / 100) ++ '.' :: [digitCharOf (a / 10 % 10), digitCharOf (a % 10)]) :
    c ≠ ',' := by
  rcases List.mem_append.mp hc with h | h
  · exact isDig_ne_comma (natStrChars_all_isDig _ c h)
  · rcases List.mem_cons.mp h with h1 | h1
    · subst h1; decide
    · rcases List.mem_cons.mp h1 with h2 | h2
      · subst h2; exact isDig_ne_comma (isDig_digitCharOf _)
      · rcases List.mem_cons.mp h2 with h3 | h3
        · subst h3; exact isDig_ne_comma (isDig_digitCharOf _)
        · simp at h3

theorem fmt2Chars_no_comma (p : ℚ) : ∀ c ∈ fmt2Chars p, c ≠ ',' := by
  intro c hc
  simp only [fmt2Chars] at hc
  split at hc
  · rcases List.mem_cons.mp hc with h1 | h1
    · subst h1; decide
    · exact mem_fmt2_body c _ h1
  · exact mem_fmt2_body c _ hc

theorem map_self_of_fix {l : List Char} {f : Char → Char}
    (h : ∀ c ∈ l, f c = c) : l.map f = l := by
  induction l with
  | nil => rfl
  | cons a l ih => simp [h a (by simp), ih (fun c hc => h c (by simp [hc]))]

theorem commaToDot_fmt2 (p : ℚ) : commaToDot (fmt2 p) = fmt2 p := by
  show (⟨(fmt2Chars p).map (fun c => if c = ',' then '.' else c)⟩ : String) = ⟨fmt2Chars p⟩
  congr 1
  exact map_self_of_fix (fun c hc => if_neg (fmt2Chars_no_comma p c hc))

theorem pyInt_intStr (q : Int) : pyInt (intStr q) = some q :=
  pyIntCore_intStrChars q

theorem pyFloat_fmt2_div100 (n : Nat) :
    pyFloat (fmt2 ((n : ℚ) / 100)) = some ((n : ℚ) / 100) :=
  pyFloatCore_fmt2 n

theorem Item.create_name (n : String) (p : ℚ) (c : String) (q : Int) :
    (Item.create n p c q).name = pyStrip n := rfl

theorem Item.create_category (n : String) (p : ℚ) (c : String) (q : Int) :
    (Item.create n p c q).category = pyStrip c := rfl

theorem Item.create_id (n : String) (p : ℚ) (c : String) (q : Int) :
    (Item.create n p c q)._id = pyLower (pyStrip n) ++ "_" ++ pyLower (pyStrip c) := rfl

theorem loadRows_fresh (its : List Item) :
    ∀ acc : Catalog,
      (∀ it ∈ its, Item.create it.name it.price it.category it.quantity = it) →
      (∀ it ∈ its, 0 ≤ it.price ∧ (it.price * 100).den = 1) →
      (its.map Item._id).Nodup →
      (∀ it ∈ its, containsKey acc it._id = false) →
      loadRows acc (its.map Item.to_csv_row) =
        acc ++ its.map (fun it => (it._id, it)) := by
  induction its with
  | nil => intro acc _ _ _ _; simp [loadRows]
  | cons it its ih =>
    intro acc hcanon hprice hnd hfresh
    have hcr : Item.create it.name it.price it.category it.quantity = it :=
      hcanon it (by simp)
    have h1 : pyStrip it.name = it.name := by
      rw [← Item.create_name it.name it.price it.category it.quantity]
      exact congrArg Item.name hcr
    have h2 : pyStrip it.category = it.category := by
      rw [← Item.create_category it.name it.price it.category it.quantity]
      exact congrArg Item.category hcr
    have hid : pyLower it.name ++ "_" ++ pyLower it.category = it._id := by
      have h3 := congrArg Item._id hcr
      rw [Item.create_id, h1, h2] at h3
      exact h3
    obtain ⟨hp0, hpden⟩ := hprice it (by simp)
    obtain ⟨np, hnp⟩ : ∃ m : Nat, it.price = (m : ℚ) / 100 := by
      refine ⟨((it.price * 100).num).toNat, ?_⟩
      have ha : ((it.price * 100).num : ℚ) = it.price * 100 :=
        Rat.coe_int_num_of_den_eq_one hpden
      have hb : 0 ≤ (it.price * 100).num := Rat.num_nonneg.mpr (by positivity)
      have hcast : (((it.price * 100).num.toNat : Nat) : ℚ) = ((it.price * 100).num : ℚ) := by
        exact_mod_cast congrArg (fun z : Int => (z : ℚ)) (Int.toNat_of_nonneg hb)
      rw [hcast, ha]
      ring
    have hqty : pyInt (intStr it.quantity) = some it.quantity := pyInt_intStr it.quantity
    have hpr : pyFloat (commaToDot (fmt2 it.price)) = some it.price := by
      rw [commaToDot_fmt2, hnp]
      exact pyFloat_fmt2_div100 np
    simp only [List.map_cons, List.nodup_cons] at hnd
    have hrow : processRow acc (Item.to_csv_row it) = acc ++ [(it._id, it)] := by
      show processRow acc
        [it.name, intStr it.quantity, fmt2 it.price, it.category] = _
      simp only [processRow, hqty, hpr]
      have hkey : addKey it.name it.category = it._id := hid
      rw [hkey, hfresh it (by simp)]
      simp only [Bool.false_eq_true, if_false]
      rw [hcr]
    have hstep : loadRows acc ((it :: its).map Item.to_csv_row) =
        loadRows (acc ++ [(it._id, it)]) (its.map Item.to_csv_row) := by
      simp only [List.map_cons, loadRows, List.foldl_cons, hrow]
    rw [hstep, ih (acc ++ [(it._id, it)])
      (fun x hx => hcanon x (by simp [hx]))
      (fun x hx => hprice x (by simp [hx]))
      hnd.2
      ?_]
    · simp
    · intro x hx
      have hc1 : containsKey acc x._id = false := hfresh x (by simp [hx])
      have hc2 : it._id ≠ x._id := fun he =>
        hnd.1 (he ▸ List.mem_map_of_mem Item._id hx)
      simp only [containsKey, List.any_append, List.any_cons, List.any_nil,
        Bool.or_false, decide_eq_false hc2, Bool.or_eq_false_iff]
      exact hc1

/-- C6 (amended): for a catalog whose entries are stored under their
items' identity keys (hence one entry per identity) and whose prices are
non-negative with at most two decimal places, exporting and importing
into an empty catalog reproduces exactly the multiset of
(identityKey, quantity, price, category) tuples. In general the export
rounds prices to two decimals, which is the only loss. -/
theorem roundtrip_preserves_tuples (inv : Catalog)
    (hcanon : inv.all (fun e => decide (e.1 = e.2._id) &&
        decide (Item.create e.2.name e.2.price e.2.category e.2.quantity = e.2)) = true)
    (hnd : (inv.map Prod.fst).Nodup)
    (hprice : inv.all (fun e => decide (0 ≤ e.2.price) &&
        decide ((e.2.price * 100).den = 1)) = true) :
    (((loadRows [] (save_to_csv_rows inv)).map tupleOf :
        List (String × Int × ℚ × String)) : Multiset (String × Int × ℚ × String)) =
      ((inv.map tupleOf : List (String × Int × ℚ × String)) :
        Multiset (String × Int × ℚ × String)) := by
  simp only [List.all_eq_true, Bool.and_eq_true, decide_eq_true_eq] at hcanon hprice
  have hperm : (get_sorted_items ("name") inv).Perm (inv.map Prod.snd) :=
    List.perm_insertionSort _ (inv.map Prod.snd)
  have hmem : ∀ x ∈ get_sorted_items ("name") inv, ∃ e ∈ inv, e.2 = x := by
    intro x hx
    have hx2 : x ∈ inv.map Prod.snd := hperm.mem_iff.mp hx
    obtain ⟨e, he, hex⟩ := List.mem_map.mp hx2
    exact ⟨e, he, hex⟩
  have hcanon2 : ∀ x ∈ get_sorted_items ("name") inv,
      Item.create x.name x.price x.category x.quantity = x := by
    intro x hx
    obtain ⟨e, he, rfl⟩ := hmem x hx
    exact (hcanon e he).2
  have hprice2 : ∀ x ∈ get_sorted_items ("name") inv,
      0 ≤ x.price ∧ (x.price * 100).den = 1 := by
    intro x hx
    obtain ⟨e, he, rfl⟩ := hmem x hx
    exact hprice e he
  have hids : inv.map Prod.fst = (inv.map Prod.snd).map Item._id := by
    rw [List.map_map]
    exact List.map_congr_left (fun e he => (hcanon e he).1)
  have hnd2 : ((get_sorted_items ("name") inv).map Item._id).Nodup :=
    ((hperm.map Item._id).nodup_iff).mpr (hids ▸ hnd)
  have hfresh0 : ∀ x ∈ get_sorted_items ("name") inv, containsKey [] x._id = false :=
    fun x _ => rfl
  have hload := loadRows_fresh (get_sorted_items ("name") inv) [] hcanon2 hprice2 hnd2 hfresh0
  have hhdr : processRow [] [("Name"), ("Quantity"), ("Price (€)"), ("Category")] = [] := rfl
  have hstart : loadRows [] (save_to_csv_rows inv) =
      loadRows [] ((get_sorted_items ("name") inv).map Item.to_csv_row) := by
    show loadRows []
      ([("Name"), ("Quantity"), ("Price (€)"), ("Category")] ::
        (get_sorted_items ("name") inv).map Item.to_csv_row) = _
    simp only [loadRows, List.foldl_cons, hhdr]
  rw [hstart, hload]
  simp only [List.nil_append]
  have hmaps : ((get_sorted_items ("name") inv).map (fun it => (it._id, it))).map tupleOf =
      (get_sorted_items ("name") inv).map
        (fun it => (it._id, it.quantity, it.price, it.category)) := by
    rw [List.map_map]
    rfl
  have hmaps2 : inv.map tupleOf =
      (inv.map Prod.snd).map (fun it => (it._id, it.quantity, it.price, it.category)) := by
    rw [List.map_map]
    rfl
  rw [hmaps, hmaps2]
  exact Multiset.coe_eq_coe.mpr
    (hperm.map (fun it => (it._id, it.quantity, it.price, it.category)))

theorem bankersRound_eighth : bankersRound ((1 : ℚ) / 8 * 100) = 12 := by
  have hq : ((1 : ℚ) / 8) * 100 = 25 / 2 := by norm_num
  have hmk : ((25 : ℚ) / 2) = mkRat 25 2 := by
    rw [Rat.mkRat_eq_divInt, Rat.divInt_eq_div]
    norm_num
  have hfl : qfloor ((25 : ℚ) / 2) = 12 := by
    rw [hmk]
    rfl
  have hr : ((25 : ℚ) / 2) - ((12 : Int) : ℚ) = 1 / 2 := by
    push_cast
    norm_num
  rw [hq]
  simp only [bankersRound, hfl, hr]
  rw [if_neg (by norm_num), if_neg (by norm_num), if_pos (by decide)]

theorem fmt2Chars_eighth : fmt2Chars ((1 : ℚ) / 8) = ['0', '.', '1', '2'] := by
  simp only [fmt2Chars, bankersRound_eighth]
  rw [if_neg (by decide : ¬ ((12 : Int) < 0))]
  rfl

theorem fmt2_eighth : fmt2 ((1 : ℚ) / 8) = ("0.12") := by
  show (⟨fmt2Chars ((1 : ℚ) / 8)⟩ : String) = ("0.12")
  rw [fmt2Chars_eighth]

theorem intStrChars_one : intStrChars 1 = ['1'] := by
  unfold intStrChars
  rw [if_neg (by decide : ¬ ((1 : Int) < 0))]
  show natStrChars 1 = ['1']
  unfold natStrChars
  rw [if_neg (by norm_num)]
  rw [Nat.digits_def' (by norm_num : (1 : Nat) < 10) (by norm_num : 0 < 1)]
  norm_num
  rfl

/-- C6: the claim states that export followed by import reproduces the
same multiset of (identityKey, quantity, price, category) tuples. It is
false: the export formats prices to two decimals, so a price of 1/8
(0.125) comes back as 0.12 and the tuple multisets differ. -/
theorem roundtrip_price_counterexample :
    ¬ ((((loadRows [] (save_to_csv_rows
          [(("widget_tools"), Item.create ("Widget") ((1 : ℚ) / 8) ("Tools") 1)])).map tupleOf :
            List (String × Int × ℚ × String)) : Multiset (String × Int × ℚ × String)) =
       (([(("widget_tools"), Item.create ("Widget") ((1 : ℚ) / 8) ("Tools") 1)].map tupleOf :
            List (String × Int × ℚ × String)) : Multiset (String × Int × ℚ × String))) := by
  intro h
  have hsave : save_to_csv_rows
      [(("widget_tools"), Item.create ("Widget") ((1 : ℚ) / 8) ("Tools") 1)] =
      [[("Name"), ("Quantity"), ("Price (€)"), ("Category")],
       [("Widget"), ("1"), ("0.12"), ("Tools")]] := by
    rw [show save_to_csv_rows
        [(("widget_tools"), Item.create ("Widget") ((1 : ℚ) / 8) ("Tools") 1)] =
        [[("Name"), ("Quantity"), ("Price (€)"), ("Category")],
         [("Widget"), intStr 1, fmt2 ((1 : ℚ) / 8), ("Tools")]] from rfl]
    rw [fmt2_eighth]
    rw [show intStr 1 = (⟨intStrChars 1⟩ : String) from rfl, intStrChars_one]
  rw [hsave] at h
  have hL1 : (loadRows [] [[("Name"), ("Quantity"), ("Price (€)"), ("Category")],
      [("Widget"), ("1"), ("0.12"), ("Tools")]]).map tupleOf =
      [(("widget_tools"), (1 : Int),
        ((0 : Nat) : ℚ) + ((12 : Nat) : ℚ) / (10 : ℚ) ^ (2 : Nat), ("Tools"))] := rfl
  have hL2 : [(("widget_tools"), Item.create ("Widget") ((1 : ℚ) / 8) ("Tools") 1)].map tupleOf =
      [(("widget_tools"), (1 : Int), (1 : ℚ) / 8, ("Tools"))] := rfl
  rw [hL1, hL2] at h
  have hperm := Multiset.coe_eq_coe.mp h
  have heq := List.perm_singleton.mp hperm
  have htup : ((("widget_tools") : String), (1 : Int),
      ((0 : Nat) : ℚ) + ((12 : Nat) : ℚ) / (10 : ℚ) ^ (2 : Nat), (("Tools") : String)) =
      ((("widget_tools") : String), (1 : Int), (1 : ℚ) / 8, (("Tools") : String)) := by
    injection heq
  have hpr : ((0 : Nat) : ℚ) + ((12 : Nat) : ℚ) / (10 : ℚ) ^ (2 : Nat) = (1 : ℚ) / 8 := by
    have h2 := congrArg (fun t : String × Int × ℚ × String => t.2.2.1) htup
    exact h2
  norm_num at hpr

/-- Witness for the amended C6 on a one-item catalog with a two-decimal
price. -/
theorem roundtrip_preserves_tuples_witness :
    ([(("widget_tools"), Item.create ("Widget") ((5 : ℚ) / 2) ("Tools") 3)] : Catalog).all
        (fun e => decide (e.1 = e.2._id) &&
          decide (Item.create e.2.name e.2.price e.2.category e.2.quantity = e.2)) = true ∧
    (([(("widget_tools"), Item.create ("Widget") ((5 : ℚ) / 2) ("Tools") 3)] : Catalog).map
        Prod.fst).Nodup ∧
    ([(("widget_tools"), Item.create ("Widget") ((5 : ℚ) / 2) ("Tools") 3)] : Catalog).all
        (fun e => decide (0 ≤ e.2.price) && decide ((e.2.price * 100).den = 1)) = true ∧
    (((loadRows [] (save_to_csv_rows
          [(("widget_tools"), Item.create ("Widget") ((5 : ℚ) / 2) ("Tools") 3)])).map tupleOf :
        List (String × Int × ℚ × String)) : Multiset (String × Int × ℚ × String)) =
      (([(("widget_tools"), Item.create ("Widget") ((5 : ℚ) / 2) ("Tools") 3)].map tupleOf :
        List (String × Int × ℚ × String)) : Multiset (String × Int × ℚ × String)) := by
  have h1 : ([(("widget_tools"), Item.create ("Widget") ((5 : ℚ) / 2) ("Tools") 3)] : Catalog).all
      (fun e => decide (e.1 = e.2._id) &&
        decide (Item.create e.2.name e.2.price e.2.category e.2.quantity = e.2)) = true := by
    simp only [List.all_cons, List.all_nil, Bool.and_true, Bool.and_eq_true, decide_eq_true_eq]
    exact ⟨rfl, rfl⟩
  have h2 : (([(("widget_tools"), Item.create ("Widget") ((5 : ℚ) / 2) ("Tools") 3)] : Catalog).map
      Prod.fst).Nodup := by decide
  have h3 : ([(("widget_tools"), Item.create ("Widget") ((5 : ℚ) / 2) ("Tools") 3)] : Catalog).all
      (fun e => decide (0 ≤ e.2.price) && decide ((e.2.price * 100).den = 1)) = true := by
    simp only [List.all_cons, List.all_nil, Bool.and_true, Bool.and_eq_true, decide_eq_true_eq]
    constructor
    · show (0 : ℚ) ≤ (5 : ℚ) / 2
      norm_num
    · show (((5 : ℚ) / 2) * 100).den = 1
      have hv : ((5 : ℚ) / 2) * 100 = ((250 : Nat) : ℚ) := by norm_num
      rw [hv, Rat.den_natCast]
  exact ⟨h1, h2, h3,
    roundtrip_preserves_tuples
      [(("widget_tools"), Item.create ("Widget") ((5 : ℚ) / 2) ("Tools") 3)] h1 h2 h3⟩
